import Mathlib

set_option maxRecDepth 10000

/- Shallow embedding of the worker-thread pool in
   src/include/reaver/thread_pool.h (class reaver::thread_pool).

   Modelling conventions:
   * thread ids (std::thread::id) are Nat; 0 stands for the
     default-constructed id std::thread::id{}; spawned workers receive the
     ids 1, 2, ... from a freshness counter carried in the state.
   * tasks are identified by a Nat; the wrapped callable is irrelevant to
     the scheduling behaviour, so a push operation records only how many
     task objects (std::packaged_task allocations) it constructed.
   * size_t arithmetic is Nat with explicit reduction modulo 2^64 at the
     two places the source can wrap (++_size and --_size).
   * the single mutex serialises everything, so each pool operation is a
     pure function on the pool state; the condition-variable notify calls
     have no effect on the sequentialised state and are dropped.
   * the idle-notification callback list (_waiters) is observationally
     irrelevant to every property below and is not modelled. -/

def defaultTid : Nat := 0

/-- The map std::unordered_map<std::thread::id, std::queue<...>>, as a
function from thread id to an optionally-present task queue. -/
def QMap : Type := Nat → Option (List Nat)

def emptyQMap : QMap := fun _ => none

/-- Reading a mapped queue, empty when the key is absent. -/
def mapGet (m : QMap) (k : Nat) : List Nat := (m k).getD []

/-- The mutation performed by operator[]: inserts a default-constructed
(empty) queue when the key is absent, otherwise leaves the map unchanged. -/
def mapTouch (m : QMap) (k : Nat) : QMap :=
  fun a => if a = k then some (mapGet m k) else m a

/-- Writing a queue under a key (operator[] followed by assignment). -/
def mapSet (m : QMap) (k : Nat) (v : List Nat) : QMap :=
  fun a => if a = k then some v else m a

/-- Erasing a key (unordered_map::erase). -/
def mapRemove (m : QMap) (k : Nat) : QMap :=
  fun a => if a = k then none else m a

/-- The pool state: _queue, _affinity_queues, _threads (registry keys),
_affinities (free-affinity list), _size, _die_semaphore, _end, plus a
freshness counter for new thread ids. -/
structure PoolState where
  queue : List Nat
  affinityQueues : QMap
  threads : List Nat
  affinities : List Nat
  size : Nat
  dieSemaphore : Nat
  endFlag : Bool
  nextId : Nat

/-- size_t decrement: --_size wraps modulo 2^64. -/
def dec64 (n : Nat) : Nat := (n + (2 ^ 64 - 1)) % 2 ^ 64

/-- The value (std::size_t)-1 used to seed smallest_size in the container
overload of push. -/
def sentinel : Nat := 2 ^ 64 - 1

inductive PoolError
  | ClosedPool
  | InvalidAffinity
  | AffinitiesExhausted
deriving DecidableEq, Repr

/-- Outcome of one push call: how many task objects were constructed, the
pool state after the call (including mutations made before a throw), and
the error thrown, if any (err = none means a future was returned). -/
structure PushOut where
  created : Nat
  state : PoolState
  err : Option PoolError

/-- thread_pool::_spawn: launches a worker, registers it in _threads,
pushes its id onto the free-affinity list, creates its affinity queue via
operator[], and increments _size. -/
def spawn (s : PoolState) : PoolState :=
  { s with
    nextId := s.nextId + 1
    threads := s.threads ++ [s.nextId]
    affinities := s.affinities ++ [s.nextId]
    affinityQueues := mapTouch s.affinityQueues s.nextId
    size := (s.size + 1) % 2 ^ 64 }

def spawnN : Nat → PoolState → PoolState
  | 0, s => s
  | n + 1, s => spawnN n (spawn s)

def initPool : PoolState :=
  { queue := [], affinityQueues := emptyQMap, threads := [], affinities := []
    size := 0, dieSemaphore := 0, endFlag := false, nextId := 1 }

/-- thread_pool::thread_pool(size): spawns size workers. -/
def mkPool (n : Nat) : PoolState := spawnN n initPool

/-- thread_pool::push(F, Args...): constructs the packaged task, then under
the lock throws thread_pool_closed if _end is set, otherwise appends to the
global queue. -/
def push (t : Nat) (s : PoolState) : PushOut :=
  if s.endFlag then { created := 1, state := s, err := some .ClosedPool }
  else { created := 1, state := { s with queue := s.queue ++ [t] }, err := none }

/-- thread_pool::push(affinity, F, Args...): a default affinity delegates
to the global push; otherwise the task is constructed, then under the lock
_end is checked (thread_pool_closed), then _affinity_queues.count(affinity)
is checked (invalid_affinity), then the task is appended to that queue. -/
def pushAffinity (aff t : Nat) (s : PoolState) : PushOut :=
  if aff = defaultTid then push t s
  else if s.endFlag then { created := 1, state := s, err := some .ClosedPool }
  else if (s.affinityQueues aff).isSome then
    { created := 1
      state :=
        { s with affinityQueues :=
            (mapSet s.affinityQueues aff (mapGet s.affinityQueues aff ++ [t])) }
      err := none }
  else { created := 1, state := s, err := some .InvalidAffinity }

/-- The candidate loop of thread_pool::push(Container, F, Args...): for
each candidate the queue length is read through operator[] (inserting an
empty queue for unknown ids) and the strictly smaller length replaces the
current (smallest_size, smallest_id) pair, so the first-seen candidate
keeps a tie.  Returns (mutated state, smallest_size, smallest_id). -/
def selectLoop : List Nat → PoolState → Nat → Nat → PoolState × Nat × Nat
  | [], s, m, b => (s, m, b)
  | a :: rest, s, m, b =>
    let s' := { s with affinityQueues := mapTouch s.affinityQueues a }
    let cur := (mapGet s'.affinityQueues a).length
    if cur < m then selectLoop rest s' cur a else selectLoop rest s' m b

/-- thread_pool::push(Container, F, Args...): runs the candidate loop
seeded with smallest_size = (std::size_t)-1 and smallest_id = id{}; if the
selected id is the default one it forwards to the global push, otherwise to
the single-affinity push. -/
def pushContainer (cands : List Nat) (t : Nat) (s : PoolState) : PushOut :=
  let r := selectLoop cands s sentinel defaultTid
  if r.2.2 = defaultTid then push t r.1 else pushAffinity r.2.2 t r.1

/-- Outcome of allocate_affinity: the state after the call and either the
returned token or the thrown error. -/
structure AllocOut where
  state : PoolState
  result : Except PoolError Nat

/-- thread_pool::allocate_affinity(insert): under the lock, spawns one
worker when the free list is empty and insert is true; then pops and
returns the back of the free list when it is non-empty, else throws
free_affinities_exhausted. -/
def allocate_affinity (ins : Bool) (s : PoolState) : AllocOut :=
  let s1 := if s.affinities.isEmpty && ins then spawn s else s
  match s1.affinities.getLast? with
  | some ret =>
    { state := { s1 with affinities := s1.affinities.dropLast }, result := .ok ret }
  | none => { state := s1, result := .error .AffinitiesExhausted }

/-- thread_pool::resize(new_size): no-op when equal; spawns while
_size < new_size when growing; when shrinking, posts old - new retirement
permits on _die_semaphore and immediately sets _size = new_size. -/
def resize (newSize : Nat) (s : PoolState) : PoolState :=
  if newSize = s.size then s
  else if s.size < newSize then spawnN (newSize - s.size) s
  else { s with
    dieSemaphore := s.dieSemaphore + (s.size - newSize)
    size := newSize }

/-- thread_pool::abort (the part executed under the lock): replaces the
global queue and the whole affinity-queue map by empty ones and sets _end.
The subsequent joins do not change the modelled state. -/
def abort (s : PoolState) : PoolState :=
  { s with queue := [], affinityQueues := emptyQMap, endFlag := true }

/-- thread_pool::_try_die run by worker w: try_wait on _die_semaphore; on
success, if w's own queue (read through operator[], which inserts it when
absent) is non-empty the permit is returned and the worker keeps running;
otherwise the worker deregisters: _affinities.erase(std::find(...)),
erasing from _affinity_queues and _threads, and --_size.  When w is not in
_affinities, std::find returns end() and vector::erase(end()) is invalid
(undefined behaviour): that outcome is modelled as none.  some (true, s')
means the worker died leaving state s'; some (false, s') means it keeps
running. -/
def tryDie (w : Nat) (s : PoolState) : Option (Bool × PoolState) :=
  if s.dieSemaphore ≠ 0 then
    let s1 := { s with dieSemaphore := s.dieSemaphore - 1 }
    let s2 := { s1 with affinityQueues := mapTouch s1.affinityQueues w }
    if (mapGet s2.affinityQueues w).isEmpty = false then
      some (false, { s2 with dieSemaphore := s2.dieSemaphore + 1 })
    else if w ∈ s2.affinities then
      some (true, { s2 with
        affinities := s2.affinities.erase w
        affinityQueues := mapRemove s2.affinityQueues w
        threads := s2.threads.erase w
        size := dec64 s2.size })
    else none
  else some (false, s)

/-- One observable decision of the body of thread_pool::_loop by worker w:
exit (return without a task), wait (block on _cond), dequeue the front of
the own queue, dequeue the front of the global queue, die via _try_die, or
hit the invalid erase inside _try_die.  Each constructor carries the state
left behind. -/
inductive WStep
  | exit (s : PoolState)
  | wait (s : PoolState)
  | runOwn (t : Nat) (s : PoolState)
  | runGlobal (t : Nat) (s : PoolState)
  | die (s : PoolState)
  | invalid

/-- The body of thread_pool::_loop for worker w, sequentialised: first
_try_die under the lock; then this_queue = _affinity_queues[w] (operator[]
inserts the queue when absent); then the wait predicate
(!_end && this_queue.empty() && _queue.empty()) decides blocking, the
return check (_end && both empty) decides exiting, and otherwise exactly
one task is dequeued, preferring the own queue over the global queue. -/
def workerStep (w : Nat) (s : PoolState) : WStep :=
  match tryDie w s with
  | none => .invalid
  | some (true, s') => .die s'
  | some (false, s1) =>
    let s2 := { s1 with affinityQueues := mapTouch s1.affinityQueues w }
    match mapGet s2.affinityQueues w, s2.queue with
    | [], [] => if s2.endFlag then .exit s2 else .wait s2
    | t :: rest, _ =>
      .runOwn t { s2 with affinityQueues := mapSet s2.affinityQueues w rest }
    | [], t :: qrest => .runGlobal t { s2 with queue := qrest }

def isRun : WStep → Bool
  | .runOwn _ _ => true
  | .runGlobal _ _ => true
  | _ => false

/-- External actions driving a pool trace: a global submit, a
single-affinity submit, or one scheduling decision of worker w. -/
inductive Act
  | pushG (t : Nat)
  | pushA (aff t : Nat)
  | step (w : Nat)

/-- A trace: the current pool state plus the tasks executed so far, each
tagged with the queue it was dequeued from (some aff = the affinity queue
of worker aff, none = the global queue). -/
structure Trace where
  state : PoolState
  executed : List (Option Nat × Nat)

def doAct (tr : Trace) (a : Act) : Trace :=
  match a with
  | .pushG t => { tr with state := (push t tr.state).state }
  | .pushA b t => { tr with state := (pushAffinity b t tr.state).state }
  | .step w =>
    match workerStep w tr.state with
    | .exit s' => { tr with state := s' }
    | .wait s' => { tr with state := s' }
    | .die s' => { tr with state := s' }
    | .invalid => tr
    | .runOwn t s' => { state := s', executed := tr.executed ++ [(some w, t)] }
    | .runGlobal t s' => { state := s', executed := tr.executed ++ [(none, t)] }

def runTrace (s0 : PoolState) (acts : List Act) : Trace :=
  acts.foldl doAct { state := s0, executed := [] }

/-- The state evolution of one action, independent of the executed log. -/
def stepState (s : PoolState) (a : Act) : PoolState :=
  (doAct { state := s, executed := [] } a).state

/-- The tasks executed from the affinity queue of token aff, in order. -/
def execQ (aff : Nat) (tr : Trace) : List Nat :=
  tr.executed.filterMap (fun p => if p.1 = some aff then some p.2 else none)

/-- The tasks an action successfully submits to the affinity queue of
token aff (mirrors the success condition of pushAffinity). -/
def newlySub (aff : Nat) (s : PoolState) : Act → List Nat
  | .pushA b t =>
    if b = aff ∧ b ≠ defaultTid ∧ s.endFlag = false ∧ (s.affinityQueues b).isSome
    then [t] else []
  | _ => []

/-- All tasks successfully submitted to the affinity queue of token aff
along a run, in submission order. -/
def submittedTo (aff : Nat) : PoolState → List Act → List Nat
  | _, [] => []
  | s, a :: rest => newlySub aff s a ++ submittedTo aff (stepState s a) rest

/-- Following the spec's words for the container overload: the candidate
with the smallest observed queue length, the first-seen candidate winning
ties. -/
def specSelect (len : Nat → Nat) : List Nat → Option Nat
  | [] => none
  | a :: rest =>
    match specSelect len rest with
    | none => some a
    | some c => if len a ≤ len c then some a else some c

/-- The accumulated operator[] insertions done by the candidate loop. -/
def touchAll (m : QMap) (l : List Nat) : QMap := l.foldl mapTouch m

/-- A small pool whose shutdown flag is already set. -/
def closedState : PoolState := { mkPool 1 with endFlag := true }

theorem mapGet_touch (m : QMap) (k a : Nat) :
    mapGet (mapTouch m k) a = mapGet m a := by
  by_cases h : a = k
  · subst h; simp [mapGet, mapTouch]
  · simp [mapGet, mapTouch, h]

theorem isSome_touch_self (m : QMap) (k : Nat) :
    ((mapTouch m k) k).isSome = true := by
  simp [mapTouch]

theorem isSome_touch_mono (m : QMap) (k a : Nat) (h : (m a).isSome = true) :
    ((mapTouch m k) a).isSome = true := by
  by_cases hk : a = k
  · subst hk; simp [mapTouch]
  · simpa [mapTouch, hk] using h

theorem mapGet_set_self (m : QMap) (k : Nat) (v : List Nat) :
    mapGet (mapSet m k v) k = v := by
  simp [mapGet, mapSet]

theorem mapGet_set_ne (m : QMap) (k a : Nat) (v : List Nat) (h : a ≠ k) :
    mapGet (mapSet m k v) a = mapGet m a := by
  simp [mapGet, mapSet, h]

theorem isSome_set_mono (m : QMap) (k a : Nat) (v : List Nat)
    (h : (m a).isSome = true) : ((mapSet m k v) a).isSome = true := by
  by_cases hk : a = k
  · subst hk; simp [mapSet]
  · simpa [mapSet, hk] using h

theorem mapGet_remove (m : QMap) (k a : Nat) :
    mapGet (mapRemove m k) a = if a = k then [] else mapGet m a := by
  by_cases h : a = k
  · subst h; simp [mapGet, mapRemove]
  · simp [mapGet, mapRemove, h]

theorem touchAll_get (l : List Nat) :
    ∀ (m : QMap) (x : Nat), mapGet (touchAll m l) x = mapGet m x := by
  induction l with
  | nil => intro m x; rfl
  | cons a rest ih =>
    intro m x
    show mapGet (touchAll (mapTouch m a) rest) x = mapGet m x
    rw [ih, mapGet_touch]

theorem touchAll_isSome_mono (l : List Nat) :
    ∀ (m : QMap) (x : Nat), (m x).isSome = true →
      ((touchAll m l) x).isSome = true := by
  induction l with
  | nil => intro m x h; exact h
  | cons a rest ih =>
    intro m x h
    exact ih (mapTouch m a) x (isSome_touch_mono m a x h)

theorem touchAll_isSome_mem (l : List Nat) :
    ∀ (m : QMap) (x : Nat), x ∈ l → ((touchAll m l) x).isSome = true := by
  induction l with
  | nil => intro m x h; cases h
  | cons a rest ih =>
    intro m x h
    cases List.mem_cons.mp h with
    | inl he =>
      subst he
      exact touchAll_isSome_mono rest (mapTouch m x) x (isSome_touch_self m x)
    | inr hr => exact ih (mapTouch m a) x hr

theorem selectLoop_state (cands : List Nat) :
    ∀ (s : PoolState) (m b : Nat),
      (selectLoop cands s m b).1
        = { s with affinityQueues := touchAll s.affinityQueues cands } := by
  induction cands with
  | nil => intro s m b; rfl
  | cons a rest ih =>
    intro s m b
    simp only [selectLoop]
    split <;> rw [ih] <;> rfl

theorem specSelect_mem (len : Nat → Nat) (l : List Nat) :
    ∀ c, specSelect len l = some c → c ∈ l := by
  induction l with
  | nil => intro c h; cases h
  | cons a rest ih =>
    intro c h
    simp only [specSelect] at h
    split at h
    · cases h; simp
    · rename_i d hrest
      split at h <;> cases h
      · simp
      · exact List.mem_cons_of_mem a (ih _ hrest)

theorem specSelect_cons_isSome (len : Nat → Nat) (a : Nat) (l : List Nat) :
    (specSelect len (a :: l)).isSome = true := by
  simp only [specSelect]
  split
  · rfl
  · split <;> rfl

theorem specSelect_le (len : Nat → Nat) (l : List Nat) :
    ∀ c, specSelect len l = some c → ∀ x ∈ l, len c ≤ len x := by
  induction l with
  | nil => intro c h; cases h
  | cons a rest ih =>
    intro c h x hx
    simp only [specSelect] at h
    cases List.mem_cons.mp hx with
    | inl hxa =>
      subst hxa
      split at h
      · cases h; exact Nat.le_refl _
      · rename_i d hrest
        split at h <;> cases h
        · exact Nat.le_refl _
        · rename_i hle; exact Nat.le_of_lt (Nat.not_le.mp hle)
    | inr hxr =>
      split at h
      · rename_i hrest
        cases rest with
        | nil => cases hxr
        | cons y ys =>
          have := specSelect_cons_isSome len y ys
          rw [hrest] at this
          cases this
      · rename_i d hrest
        split at h <;> cases h
        · rename_i hle; exact Nat.le_trans hle (ih _ hrest x hxr)
        · exact ih _ hrest x hxr

theorem selectLoop_sel (cands : List Nat) :
    ∀ (s : PoolState) (m b : Nat),
      (selectLoop cands s m b).2.2 =
        match specSelect (fun x => (mapGet s.affinityQueues x).length) cands with
        | none => b
        | some c => if (mapGet s.affinityQueues c).length < m then c else b := by
  induction cands with
  | nil => intro s m b; rfl
  | cons a rest ih =>
    intro s m b
    simp only [selectLoop, mapGet_touch, specSelect]
    by_cases hc : (mapGet s.affinityQueues a).length < m
    · rw [if_pos hc, ih]
      simp only [mapGet_touch]
      cases hrest : specSelect (fun x => (mapGet s.affinityQueues x).length) rest with
      | none => simp [hc]
      | some c =>
        by_cases hac : (mapGet s.affinityQueues a).length ≤ (mapGet s.affinityQueues c).length
        · have hca : ¬ ((mapGet s.affinityQueues c).length
              < (mapGet s.affinityQueues a).length) := Nat.not_lt.mpr hac
          simp [hac, hca, hc]
        · have hca : (mapGet s.affinityQueues c).length
              < (mapGet s.affinityQueues a).length := Nat.not_le.mp hac
          simp [hac, hca, Nat.lt_trans hca hc]
    · rw [if_neg hc, ih]
      simp only [mapGet_touch]
      cases hrest : specSelect (fun x => (mapGet s.affinityQueues x).length) rest with
      | none => simp [hc]
      | some c =>
        by_cases hac : (mapGet s.affinityQueues a).length ≤ (mapGet s.affinityQueues c).length
        · have h2 : ¬ ((mapGet s.affinityQueues c).length < m) := by
            intro hcm
            exact hc (Nat.lt_of_le_of_lt hac hcm)
          simp [hac, h2, hc]
        · simp [hac]

theorem push_state_queues (t : Nat) (s : PoolState) :
    (push t s).state.affinityQueues = s.affinityQueues ∧
    (push t s).state.endFlag = s.endFlag := by
  unfold push
  split <;> exact ⟨rfl, rfl⟩

theorem push_open (t : Nat) (s : PoolState) (h : s.endFlag = false) :
    push t s = { created := 1, state := { s with queue := s.queue ++ [t] }, err := none } := by
  unfold push
  rw [h]
  simp

theorem push_closed (t : Nat) (s : PoolState) (h : s.endFlag = true) :
    push t s = { created := 1, state := s, err := some .ClosedPool } := by
  unfold push
  rw [h]
  simp

theorem pushAffinity_success (aff t : Nat) (s : PoolState)
    (h1 : aff ≠ defaultTid) (h2 : s.endFlag = false)
    (h3 : (s.affinityQueues aff).isSome = true) :
    pushAffinity aff t s = { created := 1, state := { s with affinityQueues := (mapSet s.affinityQueues aff (mapGet s.affinityQueues aff ++ [t])) }, err := none } := by
  unfold pushAffinity
  rw [if_neg h1, h2, h3]
  simp

theorem pushAffinity_closed (aff t : Nat) (s : PoolState)
    (h1 : aff ≠ defaultTid) (h2 : s.endFlag = true) :
    pushAffinity aff t s
      = { created := 1, state := s, err := some .ClosedPool } := by
  unfold pushAffinity
  rw [if_neg h1, h2]
  simp

theorem pushAffinity_invalid (aff t : Nat) (s : PoolState)
    (h1 : aff ≠ defaultTid) (h2 : s.endFlag = false)
    (h3 : (s.affinityQueues aff).isSome = false) :
    pushAffinity aff t s
      = { created := 1, state := s, err := some .InvalidAffinity } := by
  unfold pushAffinity
  rw [if_neg h1, h2, h3]
  simp

/-- C1, amended: a submission through any overload made with the shutdown
flag set fails synchronously with ClosedPool and enqueues nothing — the
global queue and the contents of every affinity queue are unchanged — but
a task object is still constructed before the flag is checked (the source
builds the packaged task before taking the lock), so created = 1 rather
than 0. -/
theorem push_closed_pool_spec (t : Nat) (s : PoolState) (h : s.endFlag = true) :
    ((push t s).err = some .ClosedPool ∧ (push t s).state = s ∧
      (push t s).created = 1) ∧
    (∀ aff, (pushAffinity aff t s).err = some .ClosedPool ∧
      (pushAffinity aff t s).state = s ∧ (pushAffinity aff t s).created = 1) ∧
    (∀ cands, (pushContainer cands t s).err = some .ClosedPool ∧
      (pushContainer cands t s).created = 1 ∧
      (pushContainer cands t s).state.queue = s.queue ∧
      ∀ a, mapGet (pushContainer cands t s).state.affinityQueues a
        = mapGet s.affinityQueues a) := by
  refine ⟨by simp [push, h], fun aff => ?_, fun cands => ?_⟩
  · by_cases hd : aff = defaultTid
    · simp [pushAffinity, push, hd, h]
    · simp [pushAffinity, hd, h]
  · simp only [pushContainer]
    rw [selectLoop_state]
    split
    · refine ⟨by simp [push, h], by simp [push, h], by simp [push, h], fun a => ?_⟩
      simp only [push, h, if_true]
      exact touchAll_get cands s.affinityQueues a
    · rename_i hne
      have hself : ¬ ((selectLoop cands s sentinel defaultTid).2.2 = defaultTid) := hne
      refine ⟨?_, ?_, ?_, fun a => ?_⟩ <;>
        simp [pushAffinity, hself, h, touchAll_get]

/-- C1, counterexample to the claim as stated: on a closed pool the push
call still constructs one task object (created = 1, not 0) even though it
fails with ClosedPool. -/
theorem push_closed_pool_creates_task_cex :
    (push 5 closedState).created = 1 ∧
    (push 5 closedState).err = some .ClosedPool := by
  exact ⟨rfl, rfl⟩

theorem push_closed_pool_spec_witness :
    closedState.endFlag = true ∧
    ((push 5 closedState).err = some .ClosedPool ∧
      (push 5 closedState).state = closedState ∧ (push 5 closedState).created = 1) :=
  ⟨by decide, (push_closed_pool_spec 5 closedState (by decide)).1⟩

/-- C2, amended: a non-default token not registered to a live worker fails
with InvalidAffinity (and enqueues nothing) only when passed directly to
the single-affinity submit; when reached through the candidate-set
overload, the length probe's operator[] inserts an empty queue for the
token first, so the forwarded single-affinity submit finds the queue and
succeeds, enqueueing the task into a queue no worker serves. -/
theorem invalid_affinity_spec (aff t : Nat) (s : PoolState)
    (h1 : aff ≠ defaultTid) (h2 : s.endFlag = false)
    (h3 : (s.affinityQueues aff).isSome = false) :
    ((pushAffinity aff t s).err = some .InvalidAffinity ∧
      (pushAffinity aff t s).state = s) ∧
    ((pushContainer [aff] t s).err = none ∧
      mapGet (pushContainer [aff] t s).state.affinityQueues aff
        = mapGet s.affinityQueues aff ++ [t]) := by
  have hnone : s.affinityQueues aff = none := by
    cases hv : s.affinityQueues aff with
    | none => rfl
    | some v => rw [hv] at h3; cases h3
  have hget : mapGet s.affinityQueues aff = [] := by
    unfold mapGet
    rw [hnone]
    rfl
  constructor
  · rw [pushAffinity_invalid aff t s h1 h2 h3]
    exact ⟨rfl, rfl⟩
  · have hsel : (selectLoop [aff] s sentinel defaultTid).2.2 = aff := by
      rw [selectLoop_sel]
      simp [specSelect, hget, sentinel]
    simp only [pushContainer]
    rw [selectLoop_state, hsel, if_neg h1]
    have htouched : (({ s with affinityQueues := touchAll s.affinityQueues [aff]
        } : PoolState).affinityQueues aff).isSome = true :=
      touchAll_isSome_mem [aff] s.affinityQueues aff (by simp)
    have hflag : ({ s with affinityQueues := touchAll s.affinityQueues [aff]
        } : PoolState).endFlag = false := h2
    rw [pushAffinity_success aff t _ h1 hflag htouched]
    refine ⟨rfl, ?_⟩
    dsimp only
    rw [mapGet_set_self, touchAll_get]

/-- C2, counterexample to the claim as stated: submitting with the
never-issued token 5 through the candidate-set overload does not fail with
InvalidAffinity — it succeeds (err = none) and the task is enqueued in the
freshly inserted queue for token 5. -/
theorem invalid_affinity_container_cex :
    (pushContainer [5] 7 (mkPool 1)).err = none ∧
    mapGet (pushContainer [5] 7 (mkPool 1)).state.affinityQueues 5 = [7] := by
  exact ⟨rfl, by decide⟩

theorem invalid_affinity_spec_witness :
    (5 : Nat) ≠ defaultTid ∧ (mkPool 1).endFlag = false ∧
    ((mkPool 1).affinityQueues 5).isSome = false ∧
    (pushAffinity 5 7 (mkPool 1)).err = some .InvalidAffinity :=
  ⟨by decide, by decide, by decide,
    (invalid_affinity_spec 5 7 (mkPool 1) (by decide) (by decide) (by decide)).1.1⟩

/-- C3, code-bug evidence: resize(1) on a pool of 2 immediately sets the
live-worker counter to 1 while the registry still has 2 entries; after the
permitted worker retires the counter is 0 with 1 registry entry (the
retirement decrements the counter a second time), and after a 3 -> 1
shrink completes the counter has wrapped around to 2^64 - 1 while one
worker remains registered. -/
theorem size_registry_divergence_bug :
    ((resize 1 (mkPool 2)).size = 1 ∧ (resize 1 (mkPool 2)).threads.length = 2) ∧
    ((tryDie 1 (resize 1 (mkPool 2))).map
      (fun p => (p.1, p.2.size, p.2.threads.length)) = some (true, 0, 1)) ∧
    (((tryDie 1 (resize 1 (mkPool 3))).bind (fun p => tryDie 2 p.2)).map
      (fun p => (p.2.size, p.2.threads.length)) = some (2 ^ 64 - 1, 1)) := by
  refine ⟨⟨by decide, by decide⟩, by decide, by decide⟩

/-- C4, code-bug evidence: after allocate_affinity claims worker 2's token
(removing 2 from the free-affinity list) and a shrink posts a retirement
permit, worker 2 consuming the permit with an empty own queue reaches
_affinities.erase(std::find(...)) with the identity absent, i.e.
vector::erase(end()) — an invalid removal, modelled as the none outcome of
tryDie. -/
theorem retire_invalid_erase_bug :
    ((resize 1 ((allocate_affinity false (mkPool 2)).state)).dieSemaphore = 1 ∧
      (resize 1 ((allocate_affinity false (mkPool 2)).state)).affinities = [1] ∧
      mapGet (resize 1 ((allocate_affinity false
        (mkPool 2)).state)).affinityQueues 2 = []) ∧
    (tryDie 2 (resize 1 ((allocate_affinity false (mkPool 2)).state))).isNone
      = true := by
  refine ⟨⟨by decide, by decide, by decide⟩, by decide⟩


theorem allocate_affinity_pop (ins : Bool) (s : PoolState) (x : Nat)
    (hx : s.affinities.getLast? = some x) :
    allocate_affinity ins s = { state := { s with affinities := s.affinities.dropLast }, result := .ok x } := by
  have hne : s.affinities.isEmpty = false := by
    cases haf : s.affinities with
    | nil => rw [haf] at hx; cases hx
    | cons y ys => rfl
  simp only [allocate_affinity]
  rw [if_neg (by rw [hne]; simp)]
  rw [hx]

theorem allocate_affinity_spawn (s : PoolState) (haf : s.affinities = []) :
    allocate_affinity true s = { state := { spawn s with affinities := (spawn s).affinities.dropLast }, result := .ok s.nextId } := by
  have hcond : (s.affinities.isEmpty && true) = true := by rw [haf]; rfl
  have hlast : (spawn s).affinities.getLast? = some s.nextId := by
    simp [spawn, haf]
  simp only [allocate_affinity]
  rw [if_pos hcond, hlast]

theorem allocate_affinity_exhausted (s : PoolState) (haf : s.affinities = []) :
    allocate_affinity false s = { state := s, result := .error .AffinitiesExhausted } := by
  have hlast : s.affinities.getLast? = none := by rw [haf]; rfl
  simp only [allocate_affinity]
  rw [if_neg (by simp), hlast]

/-- C8, confirmed: allocate_affinity pops the back of the free-affinity
list and returns it, leaving the registry and the size unchanged; on an
empty list with spawning allowed it spawns first (registering the worker,
growing the size by one) and returns the fresh worker identity; on an
empty list with spawning disallowed it fails with AffinitiesExhausted; and
on a fresh pool of size 2 the concrete scenario holds: two
allocate_affinity(false) calls return the distinct tokens 2 and 1, a third
fails with AffinitiesExhausted, and the same call with spawning allowed
returns the fresh token 3 with size() = 3. -/
theorem allocate_affinity_behavior (ins : Bool) (s : PoolState) :
    (∀ x, s.affinities.getLast? = some x →
      (allocate_affinity ins s).result = .ok x ∧
      (allocate_affinity ins s).state.affinities = s.affinities.dropLast ∧
      (allocate_affinity ins s).state.size = s.size ∧
      (allocate_affinity ins s).state.threads = s.threads) ∧
    (s.affinities = [] → ins = true →
      (allocate_affinity ins s).result = .ok s.nextId ∧
      (allocate_affinity ins s).state.size = (s.size + 1) % 2 ^ 64 ∧
      (allocate_affinity ins s).state.threads = s.threads ++ [s.nextId] ∧
      (allocate_affinity ins s).state.affinities = []) ∧
    (s.affinities = [] → ins = false →
      (allocate_affinity ins s).result = .error .AffinitiesExhausted ∧
      (allocate_affinity ins s).state = s) ∧
    ((allocate_affinity false (mkPool 2)).result = .ok 2 ∧
      (allocate_affinity false
        (allocate_affinity false (mkPool 2)).state).result = .ok 1 ∧
      (allocate_affinity false (allocate_affinity false
        (allocate_affinity false (mkPool 2)).state).state).result
        = .error .AffinitiesExhausted ∧
      (allocate_affinity true (allocate_affinity false
        (allocate_affinity false (mkPool 2)).state).state).result = .ok 3 ∧
      (allocate_affinity true (allocate_affinity false
        (allocate_affinity false (mkPool 2)).state).state).state.size = 3) := by
  refine ⟨?_, ?_, ?_, rfl, rfl, rfl, rfl, rfl⟩
  · intro x hx
    rw [allocate_affinity_pop ins s x hx]
    exact ⟨rfl, rfl, rfl, rfl⟩
  · intro haf hins
    subst hins
    rw [allocate_affinity_spawn s haf]
    refine ⟨rfl, rfl, rfl, ?_⟩
    simp [spawn, haf]
  · intro haf hins
    subst hins
    rw [allocate_affinity_exhausted s haf]
    exact ⟨rfl, rfl⟩

theorem allocate_affinity_behavior_witness :
    (mkPool 2).affinities.getLast? = some 2 ∧
    (allocate_affinity false (mkPool 2)).result = .ok 2 ∧
    (allocate_affinity false (mkPool 2)).state.size = (mkPool 2).size :=
  ⟨by decide,
    ((allocate_affinity_behavior false (mkPool 2)).1 2 (by decide)).1,
    ((allocate_affinity_behavior false (mkPool 2)).1 2 (by decide)).2.2.1⟩

/-- C9, confirmed: allocate_affinity never inspects the shutdown flag, so
on a pool whose shutdown flag is set it never fails with ClosedPool: any
error it returns is AffinitiesExhausted, it still pops and returns the
back of the free list when one exists, and with spawning allowed it
spawns a new worker even on the closed pool. -/
theorem allocate_affinity_ignores_shutdown (ins : Bool) (s : PoolState)
    (_h : s.endFlag = true) :
    (∀ e, (allocate_affinity ins s).result = .error e →
      e = .AffinitiesExhausted) ∧
    (∀ x, s.affinities.getLast? = some x →
      (allocate_affinity ins s).result = .ok x) ∧
    (s.affinities = [] → ins = true →
      (allocate_affinity ins s).result = .ok s.nextId ∧
      (allocate_affinity ins s).state.threads = s.threads ++ [s.nextId]) := by
  refine ⟨?_, ?_, ?_⟩
  · intro e he
    simp only [allocate_affinity] at he
    split at he
    · cases he
    · cases he; rfl
  · intro x hx
    rw [allocate_affinity_pop ins s x hx]
  · intro haf hins
    subst hins
    rw [allocate_affinity_spawn s haf]
    exact ⟨rfl, rfl⟩

theorem allocate_affinity_ignores_shutdown_witness :
    closedState.endFlag = true ∧
    closedState.affinities.getLast? = some 1 ∧
    (allocate_affinity false closedState).result = .ok 1 :=
  ⟨by decide, by decide,
    (allocate_affinity_ignores_shutdown false closedState
      (by decide)).2.1 1 (by decide)⟩

/-- C10, confirmed: after any call to the candidate-set overload, every
candidate token — including tokens never issued by this pool and the
default token — has an entry in the worker-id-to-queue mapping, because
the length probe reads each candidate through operator[], which inserts a
default-constructed queue for any absent key. -/
theorem container_touch_inserts_queues (cands : List Nat) (t : Nat)
    (s : PoolState) :
    ∀ a ∈ cands,
      ((pushContainer cands t s).state.affinityQueues a).isSome = true := by
  intro a ha
  have hsel : ((selectLoop cands s sentinel defaultTid).1.affinityQueues a).isSome
      = true := by
    rw [selectLoop_state]
    exact touchAll_isSome_mem cands s.affinityQueues a ha
  simp only [pushContainer]
  split
  · unfold push
    split
    · exact hsel
    · exact hsel
  · unfold pushAffinity
    split
    · unfold push
      split
      · exact hsel
      · exact hsel
    · split
      · exact hsel
      · split
        · exact isSome_set_mono _ _ _ _ hsel
        · exact hsel

theorem container_touch_inserts_queues_witness :
    (5 : Nat) ∈ [5] ∧
    ((pushContainer [5] 7 (mkPool 1)).state.affinityQueues 5).isSome = true :=
  ⟨by decide, container_touch_inserts_queues [5] 7 (mkPool 1) 5 (by decide)⟩

theorem tryDie_nopermit (w : Nat) (s : PoolState) (h : s.dieSemaphore = 0) :
    tryDie w s = some (false, s) := by
  unfold tryDie
  rw [if_neg (by omega)]

theorem tryDie_busy (w : Nat) (s : PoolState) (h : s.dieSemaphore ≠ 0)
    (hne : mapGet s.affinityQueues w ≠ []) :
    tryDie w s = some (false, { s with
      affinityQueues := mapTouch s.affinityQueues w,
      dieSemaphore := s.dieSemaphore - 1 + 1 }) := by
  have hne2 : (mapGet (mapTouch s.affinityQueues w) w).isEmpty = false := by
    rw [mapGet_touch]
    cases hv : mapGet s.affinityQueues w with
    | nil => exact absurd hv hne
    | cons y ys => rfl
  simp only [tryDie, if_pos h, hne2]
  rfl

theorem tryDie_dies (w : Nat) (s : PoolState) (h : s.dieSemaphore ≠ 0)
    (hq : mapGet s.affinityQueues w = []) (hmem : w ∈ s.affinities) :
    tryDie w s = some (true, { s with
      affinityQueues := mapRemove (mapTouch s.affinityQueues w) w,
      threads := s.threads.erase w,
      affinities := s.affinities.erase w,
      size := dec64 s.size,
      dieSemaphore := s.dieSemaphore - 1 }) := by
  have hq2 : (mapGet (mapTouch s.affinityQueues w) w).isEmpty = true := by
    rw [mapGet_touch, hq]; rfl
  simp only [tryDie, if_pos h, hq2]
  rw [if_neg (by simp), if_pos hmem]

theorem tryDie_ub (w : Nat) (s : PoolState) (h : s.dieSemaphore ≠ 0)
    (hq : mapGet s.affinityQueues w = []) (hmem : w ∉ s.affinities) :
    tryDie w s = none := by
  have hq2 : (mapGet (mapTouch s.affinityQueues w) w).isEmpty = true := by
    rw [mapGet_touch, hq]; rfl
  simp only [tryDie, if_pos h, hq2]
  rw [if_neg (by simp), if_neg hmem]

theorem tryDie_queues (w : Nat) (s : PoolState) :
    match tryDie w s with
    | none => True
    | some (true, s') => mapGet s.affinityQueues w = [] ∧ s'.queue = s.queue ∧
        (∀ b, mapGet s'.affinityQueues b = mapGet s.affinityQueues b) ∧
        s'.endFlag = s.endFlag ∧ s'.affinities = s.affinities.erase w
    | some (false, s1) => s1.queue = s.queue ∧
        (∀ b, mapGet s1.affinityQueues b = mapGet s.affinityQueues b) ∧
        s1.endFlag = s.endFlag ∧ s1.affinities = s.affinities := by
  by_cases hsem : s.dieSemaphore = 0
  · rw [tryDie_nopermit w s hsem]
    exact ⟨rfl, fun b => rfl, rfl, rfl⟩
  · by_cases hq : mapGet s.affinityQueues w = []
    · by_cases hmem : w ∈ s.affinities
      · rw [tryDie_dies w s hsem hq hmem]
        refine ⟨hq, rfl, fun b => ?_, rfl, rfl⟩
        by_cases hbw : b = w
        · subst hbw
          rw [show mapGet (mapRemove (mapTouch s.affinityQueues b) b) b = [] from by
            rw [mapGet_remove]; simp]
          exact hq.symm
        · rw [show mapGet (mapRemove (mapTouch s.affinityQueues w) w) b
              = mapGet (mapTouch s.affinityQueues w) b from by
            rw [mapGet_remove, if_neg hbw]]
          exact mapGet_touch _ _ _
      · rw [tryDie_ub w s hsem hq hmem]
        exact trivial
    · rw [tryDie_busy w s hsem hq]
      exact ⟨rfl, fun b => mapGet_touch _ _ _, rfl, rfl⟩

theorem workerStep_queues (w : Nat) (s : PoolState) :
    match workerStep w s with
    | .runOwn t s' => mapGet s.affinityQueues w = t :: mapGet s'.affinityQueues w ∧
        (∀ b, b ≠ w → mapGet s'.affinityQueues b = mapGet s.affinityQueues b) ∧
        s'.queue = s.queue ∧ s'.endFlag = s.endFlag
    | .runGlobal t s' => s.queue = t :: s'.queue ∧
        (∀ b, mapGet s'.affinityQueues b = mapGet s.affinityQueues b) ∧
        s'.endFlag = s.endFlag
    | .exit s' => s'.queue = s.queue ∧
        (∀ b, mapGet s'.affinityQueues b = mapGet s.affinityQueues b) ∧
        s'.endFlag = s.endFlag
    | .wait s' => s'.queue = s.queue ∧
        (∀ b, mapGet s'.affinityQueues b = mapGet s.affinityQueues b) ∧
        s'.endFlag = s.endFlag
    | .die s' => mapGet s.affinityQueues w = [] ∧ s'.queue = s.queue ∧
        (∀ b, mapGet s'.affinityQueues b = mapGet s.affinityQueues b) ∧
        s'.endFlag = s.endFlag
    | .invalid => True := by
  have htd := tryDie_queues w s
  cases htr : tryDie w s with
  | none =>
    simp only [workerStep, htr]
  | some p =>
    rw [htr] at htd
    obtain ⟨fl, s1⟩ := p
    cases fl with
    | true =>
      simp only [workerStep, htr]
      exact ⟨htd.1, htd.2.1, htd.2.2.1, htd.2.2.2.1⟩
    | false =>
      obtain ⟨hq1, hm1, he1, _⟩ := htd
      simp only [workerStep, htr]
      cases hq : mapGet (mapTouch s1.affinityQueues w) w with
      | nil =>
        cases hg : s1.queue with
        | nil =>
          by_cases hend : s1.endFlag = true
          · rw [if_pos hend]
            exact ⟨by rw [← hg]; exact hq1,
              fun b => by rw [mapGet_touch]; exact hm1 b, he1⟩
          · rw [if_neg hend]
            exact ⟨by rw [← hg]; exact hq1,
              fun b => by rw [mapGet_touch]; exact hm1 b, he1⟩
        | cons t grest =>
          exact ⟨by rw [← hq1, hg],
            fun b => by rw [mapGet_touch]; exact hm1 b, he1⟩
      | cons t qrest =>
        refine ⟨?_, fun b hbw => ?_, hq1, he1⟩
        · rw [mapGet_set_self, ← hm1 w, ← mapGet_touch s1.affinityQueues w w, hq]
        · rw [mapGet_set_ne _ _ _ _ hbw, mapGet_touch]
          exact hm1 b

theorem doAct_aborted (tr : Trace) (a : Act) (h1 : tr.state.endFlag = true)
    (h2 : tr.state.queue = []) (h3 : ∀ x, mapGet tr.state.affinityQueues x = []) :
    (doAct tr a).executed = tr.executed ∧
    (doAct tr a).state.endFlag = true ∧ (doAct tr a).state.queue = [] ∧
    (∀ x, mapGet (doAct tr a).state.affinityQueues x = []) := by
  cases a with
  | pushG t =>
    simp only [doAct]
    rw [push_closed t tr.state h1]
    exact ⟨trivial, h1, h2, h3⟩
  | pushA b t =>
    simp only [doAct]
    have hst : (pushAffinity b t tr.state).state = tr.state := by
      by_cases hb : b = defaultTid
      · unfold pushAffinity
        rw [if_pos hb, push_closed t tr.state h1]
      · rw [pushAffinity_closed b t tr.state hb h1]
    rw [hst]
    exact ⟨trivial, h1, h2, h3⟩
  | step w =>
    have hws := workerStep_queues w tr.state
    simp only [doAct]
    cases hw : workerStep w tr.state with
    | exit s' =>
      rw [hw] at hws
      exact ⟨rfl, by rw [hws.2.2]; exact h1, by rw [hws.1]; exact h2,
        fun x => by rw [hws.2.1 x]; exact h3 x⟩
    | wait s' =>
      rw [hw] at hws
      exact ⟨rfl, by rw [hws.2.2]; exact h1, by rw [hws.1]; exact h2,
        fun x => by rw [hws.2.1 x]; exact h3 x⟩
    | die s' =>
      rw [hw] at hws
      exact ⟨rfl, by rw [hws.2.2.2]; exact h1, by rw [hws.2.1]; exact h2,
        fun x => by rw [hws.2.2.1 x]; exact h3 x⟩
    | invalid => exact ⟨rfl, h1, h2, h3⟩
    | runOwn t s' =>
      rw [hw] at hws
      have hx := hws.1
      rw [h3 w] at hx
      cases hx
    | runGlobal t s' =>
      rw [hw] at hws
      have hx := hws.1
      rw [h2] at hx
      cases hx

theorem run_aborted (acts : List Act) :
    ∀ (tr : Trace), tr.state.endFlag = true → tr.state.queue = [] →
      (∀ x, mapGet tr.state.affinityQueues x = []) →
      (acts.foldl doAct tr).executed = tr.executed := by
  induction acts with
  | nil => intro tr h1 h2 h3; rfl
  | cons a rest ih =>
    intro tr h1 h2 h3
    have hd := doAct_aborted tr a h1 h2 h3
    show (rest.foldl doAct (doAct tr a)).executed = tr.executed
    rw [ih (doAct tr a) hd.2.1 hd.2.2.1 hd.2.2.2, hd.1]

theorem no_run_of_empty (w : Nat) (s : PoolState) (h2 : s.queue = [])
    (h3 : ∀ x, mapGet s.affinityQueues x = []) :
    isRun (workerStep w s) = false := by
  have hws := workerStep_queues w s
  cases hw : workerStep w s with
  | runOwn t s' =>
    rw [hw] at hws
    have hx := hws.1
    rw [h3 w] at hx
    cases hx
  | runGlobal t s' =>
    rw [hw] at hws
    have hx := hws.1
    rw [h2] at hx
    cases hx
  | exit s' => rfl
  | wait s' => rfl
  | die s' => rfl
  | invalid => rfl

/-- C6, confirmed: abort clears the global queue and every affinity queue
and sets the shutdown flag; at the resulting state no worker scheduling
decision ever dequeues a task (every worker exits, retires, or — with a
stale permit and a claimed token — hits the invalid erase, but never
runs), along any continuation of the trace zero tasks execute, and every
subsequent submit (global or affinity) fails with ClosedPool. -/
theorem abort_discards_all (s : PoolState) :
    (abort s).queue = [] ∧ (abort s).endFlag = true ∧
    (∀ a, mapGet (abort s).affinityQueues a = []) ∧
    (∀ w, isRun (workerStep w (abort s)) = false) ∧
    (∀ acts, (runTrace (abort s) acts).executed = []) ∧
    (∀ t, (push t (abort s)).err = some .ClosedPool) ∧
    (∀ aff t, (pushAffinity aff t (abort s)).err = some .ClosedPool) := by
  have habq : ∀ a, mapGet (abort s).affinityQueues a = [] := fun a => rfl
  refine ⟨rfl, rfl, habq, fun w => no_run_of_empty w (abort s) rfl habq,
    fun acts => run_aborted acts { state := abort s, executed := [] } rfl rfl habq,
    fun t => by rw [push_closed t (abort s) rfl], fun aff t => ?_⟩
  by_cases hb : aff = defaultTid
  · unfold pushAffinity
    rw [if_pos hb, push_closed t (abort s) rfl]
  · rw [pushAffinity_closed aff t (abort s) hb rfl]
/-- C7, confirmed: the candidate-set overload reads each candidate queue's
length one at a time (sequentialised under the lock in this embedding) and
forwards to the single-affinity submit for the token with the smallest
observed length, the first-seen candidate winning ties (specSelect is that
spec-side selection rule); an empty candidate set, or one containing only
the default token, falls back to the global submit.  The bound hypothesis
excludes queue lengths at the (std::size_t)-1 seed value, which no real
queue can reach. -/
theorem container_selects_least_loaded (cands : List Nat) (t : Nat)
    (s : PoolState)
    (hb : ∀ a ∈ cands, (mapGet s.affinityQueues a).length < sentinel)
    (hopen : s.endFlag = false) :
    (cands = [] → (selectLoop cands s sentinel defaultTid).2.2 = defaultTid) ∧
    ((∀ a ∈ cands, a = defaultTid) →
      (selectLoop cands s sentinel defaultTid).2.2 = defaultTid) ∧
    (∀ c, specSelect (fun x => (mapGet s.affinityQueues x).length) cands
        = some c →
      (selectLoop cands s sentinel defaultTid).2.2 = c ∧ c ∈ cands ∧
      ∀ a ∈ cands, (mapGet s.affinityQueues c).length
        ≤ (mapGet s.affinityQueues a).length) ∧
    ((selectLoop cands s sentinel defaultTid).2.2 = defaultTid →
      (pushContainer cands t s).err = none ∧
      (pushContainer cands t s).state.queue = s.queue ++ [t] ∧
      (∀ b, mapGet (pushContainer cands t s).state.affinityQueues b
        = mapGet s.affinityQueues b)) ∧
    ((selectLoop cands s sentinel defaultTid).2.2 ≠ defaultTid →
      (pushContainer cands t s).err = none ∧
      (pushContainer cands t s).state.queue = s.queue ∧
      mapGet (pushContainer cands t s).state.affinityQueues
          ((selectLoop cands s sentinel defaultTid).2.2)
        = mapGet s.affinityQueues
            ((selectLoop cands s sentinel defaultTid).2.2) ++ [t] ∧
      (∀ b, b ≠ (selectLoop cands s sentinel defaultTid).2.2 →
        mapGet (pushContainer cands t s).state.affinityQueues b
          = mapGet s.affinityQueues b)) := by
  have hsel := selectLoop_sel cands s sentinel defaultTid
  have hmem : (selectLoop cands s sentinel defaultTid).2.2 ≠ defaultTid →
      (selectLoop cands s sentinel defaultTid).2.2 ∈ cands := by
    intro hne
    rw [hsel] at hne ⊢
    cases hsp : specSelect (fun x => (mapGet s.affinityQueues x).length) cands with
    | none =>
      simp only [hsp] at hne
      exact absurd rfl hne
    | some c =>
      simp only [hsp] at hne ⊢
      by_cases hlt : (mapGet s.affinityQueues c).length < sentinel
      · rw [if_pos hlt]
        exact specSelect_mem _ cands c hsp
      · rw [if_neg hlt] at hne
        exact absurd rfl hne
  refine ⟨?_, ?_, ?_, ?_, ?_⟩
  · intro he
    subst he
    rfl
  · intro hall
    rw [hsel]
    cases hsp : specSelect (fun x => (mapGet s.affinityQueues x).length) cands with
    | none => rfl
    | some c =>
      have hc : c = defaultTid := hall c (specSelect_mem _ cands c hsp)
      subst hc
      simp only [hsp]
      split <;> rfl
  · intro c hsp
    have hcmem : c ∈ cands := specSelect_mem _ cands c hsp
    refine ⟨?_, hcmem, specSelect_le _ cands c hsp⟩
    rw [hsel]
    simp only [hsp]
    rw [if_pos (hb c hcmem)]
  · intro hdef
    simp only [pushContainer]
    rw [if_pos hdef, selectLoop_state]
    rw [push_open t { s with affinityQueues := touchAll s.affinityQueues cands }
      hopen]
    exact ⟨rfl, rfl, fun b => touchAll_get cands s.affinityQueues b⟩
  · intro hne
    have hin : (selectLoop cands s sentinel defaultTid).2.2 ∈ cands := hmem hne
    simp only [pushContainer]
    rw [if_neg hne, selectLoop_state]
    rw [pushAffinity_success _ t
      { s with affinityQueues := touchAll s.affinityQueues cands } hne hopen
      (touchAll_isSome_mem cands s.affinityQueues _ hin)]
    refine ⟨rfl, rfl, ?_, fun b hb2 => ?_⟩
    · dsimp only
      rw [mapGet_set_self, touchAll_get]
    · dsimp only
      rw [mapGet_set_ne _ _ _ _ hb2, touchAll_get]

theorem container_selects_least_loaded_witness :
    (∀ a ∈ [1], (mapGet (mkPool 2).affinityQueues a).length < sentinel) ∧
    (mkPool 2).endFlag = false ∧
    (selectLoop [1] (mkPool 2) sentinel defaultTid).2.2 = 1 ∧
    (pushContainer [1] 9 (mkPool 2)).err = none ∧
    mapGet (pushContainer [1] 9 (mkPool 2)).state.affinityQueues 1 = [9] :=
  ⟨by decide, by decide,
    ((container_selects_least_loaded [1] 9 (mkPool 2) (by decide)
      (by decide)).2.2.1 1 (by decide)).1,
    ((container_selects_least_loaded [1] 9 (mkPool 2) (by decide)
      (by decide)).2.2.2.2 (by decide)).1,
    by decide⟩

theorem doAct_state (tr : Trace) (a : Act) :
    (doAct tr a).state = stepState tr.state a := by
  cases a with
  | pushG t => rfl
  | pushA b t => rfl
  | step w =>
    simp only [doAct, stepState]
    cases hw : workerStep w tr.state <;> rfl

theorem bool_eq_false {b : Bool} (h : ¬ b = true) : b = false := by
  cases b
  · rfl
  · exact absurd rfl h

theorem hist_step (aff : Nat) (haff : aff ≠ defaultTid) (tr : Trace) (a : Act) :
    execQ aff (doAct tr a) ++ mapGet (doAct tr a).state.affinityQueues aff
      = execQ aff tr ++ mapGet tr.state.affinityQueues aff
          ++ newlySub aff tr.state a := by
  cases a with
  | pushG t =>
    simp only [doAct, newlySub, execQ, List.append_nil]
    rw [(push_state_queues t tr.state).1]
  | pushA b t =>
    simp only [doAct, newlySub, execQ]
    by_cases hb : b = defaultTid
    · have hst : (pushAffinity b t tr.state).state.affinityQueues
          = tr.state.affinityQueues := by
        unfold pushAffinity
        rw [if_pos hb]
        exact (push_state_queues t tr.state).1
      rw [hst, if_neg (by simp [hb, haff, hb ▸ haff])]
      simp
    · by_cases he : tr.state.endFlag = true
      · rw [pushAffinity_closed b t tr.state hb he]
        rw [if_neg (by simp [he])]
        simp
      · have he' : tr.state.endFlag = false := bool_eq_false he
        by_cases hsome : (tr.state.affinityQueues b).isSome = true
        · rw [pushAffinity_success b t tr.state hb he' hsome]
          by_cases hba : b = aff
          · subst hba
            rw [if_pos ⟨rfl, hb, he', hsome⟩]
            dsimp only
            rw [mapGet_set_self, List.append_assoc]
          · rw [if_neg (by simp [hba])]
            dsimp only
            rw [mapGet_set_ne _ _ _ _ (fun hx => hba hx.symm)]
            simp
        · have hs' : (tr.state.affinityQueues b).isSome = false :=
            bool_eq_false hsome
          rw [pushAffinity_invalid b t tr.state hb he' hs']
          rw [if_neg (by simp [hs'])]
          simp
  | step w =>
    have hws := workerStep_queues w tr.state
    simp only [doAct, newlySub, List.append_nil]
    cases hw : workerStep w tr.state with
    | exit s' =>
      rw [hw] at hws
      simp only [execQ]
      rw [hws.2.1 aff]
    | wait s' =>
      rw [hw] at hws
      simp only [execQ]
      rw [hws.2.1 aff]
    | die s' =>
      rw [hw] at hws
      simp only [execQ]
      rw [hws.2.2.1 aff]
    | invalid => rfl
    | runOwn t s' =>
      rw [hw] at hws
      simp only [execQ, List.filterMap_append]
      by_cases hwa : w = aff
      · subst hwa
        have hfm : List.filterMap
            (fun q => if q.1 = some w then some q.2 else none)
            [((some w : Option Nat), t)] = [t] := by simp
        rw [hfm, List.append_assoc]
        congr 1
        rw [hws.1]
        rfl
      · have hfm : List.filterMap
            (fun q => if q.1 = some aff then some q.2 else none)
            [((some w : Option Nat), t)] = [] := by simp [hwa]
        rw [hfm, List.append_nil]
        congr 1
        exact hws.2.1 aff (fun hx => hwa hx.symm)
    | runGlobal t s' =>
      rw [hw] at hws
      simp only [execQ, List.filterMap_append]
      have hfm : List.filterMap
          (fun q => if q.1 = some aff then some q.2 else none)
          [((none : Option Nat), t)] = [] := by simp
      rw [hfm, List.append_nil]
      congr 1
      exact hws.2.1 aff

theorem hist_run (aff : Nat) (haff : aff ≠ defaultTid) (acts : List Act) :
    ∀ tr : Trace,
      execQ aff (acts.foldl doAct tr)
          ++ mapGet (acts.foldl doAct tr).state.affinityQueues aff
        = execQ aff tr ++ mapGet tr.state.affinityQueues aff
            ++ submittedTo aff tr.state acts := by
  induction acts with
  | nil =>
    intro tr
    simp [submittedTo]
  | cons a rest ih =>
    intro tr
    simp only [List.foldl_cons]
    rw [ih (doAct tr a), hist_step aff haff tr a, doAct_state]
    simp [submittedTo, List.append_assoc]

/-- C5, confirmed: along any sequence of global submissions, affinity
submissions, and worker scheduling decisions, the tasks executed from the
affinity queue of a non-default token aff, followed by the tasks still in
that queue, equal exactly the tasks successfully submitted against aff in
submission order — so two tasks submitted against the same token execute
in strict submission order, regardless of interleaving with global or
other-affinity work; moreover a single-affinity submit writes only that
token's queue: the global queue and every other affinity queue are
untouched. -/
theorem affinity_fifo_order (aff : Nat) (s0 : PoolState) (acts : List Act)
    (haff : aff ≠ defaultTid)
    (h0 : mapGet s0.affinityQueues aff = []) :
    (execQ aff (runTrace s0 acts)
        ++ mapGet (runTrace s0 acts).state.affinityQueues aff
      = submittedTo aff s0 acts) ∧
    (∀ (s : PoolState) (t : Nat),
      (pushAffinity aff t s).state.queue = s.queue ∧
      ∀ b, b ≠ aff →
        mapGet (pushAffinity aff t s).state.affinityQueues b
          = mapGet s.affinityQueues b) := by
  constructor
  · have hr := hist_run aff haff acts { state := s0, executed := [] }
    rw [show execQ aff { state := s0, executed := [] } = [] from rfl] at hr
    rw [show ({ state := s0, executed := [] } : Trace).state = s0 from rfl] at hr
    rw [h0] at hr
    simpa [runTrace] using hr
  · intro s t
    by_cases he : s.endFlag = true
    · rw [pushAffinity_closed aff t s haff he]
      exact ⟨rfl, fun b hb => rfl⟩
    · have he' : s.endFlag = false := bool_eq_false he
      by_cases hsome : (s.affinityQueues aff).isSome = true
      · rw [pushAffinity_success aff t s haff he' hsome]
        exact ⟨rfl, fun b hb => mapGet_set_ne _ _ _ _ hb⟩
      · rw [pushAffinity_invalid aff t s haff he' (bool_eq_false hsome)]
        exact ⟨rfl, fun b hb => rfl⟩

theorem affinity_fifo_order_witness :
    (1 : Nat) ≠ defaultTid ∧
    mapGet (mkPool 1).affinityQueues 1 = [] ∧
    execQ 1 (runTrace (mkPool 1) [.pushA 1 10, .pushA 1 20, .step 1])
        ++ mapGet (runTrace (mkPool 1)
            [.pushA 1 10, .pushA 1 20, .step 1]).state.affinityQueues 1
      = submittedTo 1 (mkPool 1) [.pushA 1 10, .pushA 1 20, .step 1] :=
  ⟨by decide, by decide,
    (affinity_fifo_order 1 (mkPool 1) [.pushA 1 10, .pushA 1 20, .step 1]
      (by decide) (by decide)).1⟩
